import Mathlib

/-
  Verification of the cfr repository: a shallow embedding in Lean 4 of the
  MCCFR training engine and the crossword (SCRABBLE-like) move generator,
  together with proofs settling the specification claims.

  Conventions of the embedding:
  * Rust f32/f64 accumulators are modelled over ℚ (exact arithmetic);
  * machine integers are modelled as ℕ / ℤ;
  * fallible Rust code (index panics, assert! failures, Option) is modelled
    with Option;
  * randomness (rand::thread_rng) is modelled by explicit oracle parameters
    supplying the indices the RNG would pick.
-/

namespace CFRSpec

/-! ## StateNode and regret matching (src/cfr/node.rs)

A StateNode stores, per information set, the arrays
regret_sum / strategy / strategy_sum of length num_actions.
compute_strategy (node.rs lines 31-50) first clips the regrets at zero,
accumulating the normalizing sum, then either divides by the sum or falls
back to the uniform distribution. -/

/-- Embedding of StateNode::compute_strategy from src/cfr/node.rs: the input
list is regret_sum (length num_actions) and the result is the strategy array
after the call. -/
def compute_strategy (regretSum : List ℚ) : List ℚ :=
  let clipped := regretSum.map (fun r => if 0 < r then r else 0)
  let normalizingSum := clipped.sum
  if 0 < normalizingSum then
    clipped.map (fun x => x / normalizingSum)
  else
    clipped.map (fun _ => 1 / (regretSum.length : ℚ))

lemma sum_map_div (l : List ℚ) (c : ℚ) :
    (l.map (fun x => x / c)).sum = l.sum / c := by
  induction l with
  | nil => simp
  | cons a t ih => simp [add_div, ih]

lemma clip_eq_max (r : ℚ) : (if 0 < r then r else 0) = max r 0 := by
  rcases le_or_lt r 0 with h | h
  · simp [not_lt.mpr h, max_eq_right h]
  · simp [h, le_of_lt h]

lemma compute_strategy_eq (regretSum : List ℚ) :
    compute_strategy regretSum =
      if 0 < (regretSum.map (fun r => max r 0)).sum then
        (regretSum.map (fun r => max r 0)).map
          (fun x => x / (regretSum.map (fun r => max r 0)).sum)
      else
        (regretSum.map (fun r => max r 0)).map
          (fun _ => 1 / (regretSum.length : ℚ)) := by
  have hmapeq : regretSum.map (fun r => if 0 < r then r else 0)
      = regretSum.map (fun r => max r 0) := by
    refine List.map_congr_left ?_
    intro r _
    exact clip_eq_max r
  unfold compute_strategy
  rw [hmapeq]

lemma compute_strategy_length (regretSum : List ℚ) :
    (compute_strategy regretSum).length = regretSum.length := by
  rw [compute_strategy_eq]
  split <;> simp

/-- C2: after compute_strategy, the strategy is the regret-matching
distribution: each entry is max(regret_sum[a], 0) divided by the sum of the
clipped regrets when that sum is positive, and 1/num_actions otherwise;
consequently every entry is nonnegative and the entries sum to exactly 1
(so in particular within 1e-6 of 1). -/
theorem compute_strategy_regret_matching (regretSum : List ℚ)
    (h : 0 < regretSum.length) :
    (compute_strategy regretSum).length = regretSum.length ∧
    (∀ i, i < regretSum.length →
      (compute_strategy regretSum).get? i =
        some (if 0 < (regretSum.map (fun r => max r 0)).sum then
          max (regretSum.getD i 0) 0 / (regretSum.map (fun r => max r 0)).sum
        else 1 / (regretSum.length : ℚ))) ∧
    (∀ x ∈ compute_strategy regretSum, 0 ≤ x) ∧
    (compute_strategy regretSum).sum = 1 := by
  set strat := compute_strategy regretSum with hsdef
  set normalizingSum := (regretSum.map (fun r => max r 0)).sum with hndef
  have hstrat : strat = if 0 < normalizingSum then
      (regretSum.map (fun r => max r 0)).map (fun x => x / normalizingSum)
    else (regretSum.map (fun r => max r 0)).map
      (fun _ => 1 / (regretSum.length : ℚ)) := compute_strategy_eq regretSum
  refine ⟨compute_strategy_length regretSum, ?_, ?_, ?_⟩
  · -- pointwise description
    intro i hi
    have hget : regretSum.get? i = some (regretSum.getD i 0) := by
      cases hg : regretSum.get? i with
      | none => exact absurd (List.get?_eq_none.mp hg) (by omega)
      | some v =>
        have hgd : regretSum.getD i 0 = (regretSum.get? i).getD 0 := by
          simp [List.getD_eq_getD_get?, List.get?_eq_getElem?]
        rw [hgd, hg]
        rfl
    rw [hstrat]
    by_cases hpos : 0 < normalizingSum
    · simp only [hpos, if_true]
      rw [List.get?_map, List.get?_map, hget]
      simp
    · simp only [hpos, if_false]
      rw [List.get?_map, List.get?_map, hget]
      simp
  · -- nonnegativity
    intro x hx
    rw [hstrat] at hx
    by_cases hpos : 0 < normalizingSum
    · simp only [hpos, if_true, List.mem_map] at hx
      rcases hx with ⟨y, ⟨r, _, hry⟩, hyx⟩
      subst hyx
      subst hry
      exact div_nonneg (le_max_right r 0) (le_of_lt hpos)
    · simp only [hpos, if_false, List.mem_map] at hx
      rcases hx with ⟨y, _, hyx⟩
      subst hyx
      positivity
  · -- the entries sum to one
    rw [hstrat]
    by_cases hpos : 0 < normalizingSum
    · simp only [hpos, if_true]
      rw [sum_map_div]
      exact div_self (ne_of_gt hpos)
    · simp only [hpos, if_false]
      have hrepl : ((regretSum.map (fun r => max r 0)).map
          fun _ => 1 / (regretSum.length : ℚ))
          = List.replicate regretSum.length (1 / (regretSum.length : ℚ)) := by
        rw [List.map_const']
        simp
      rw [hrepl, List.sum_replicate, nsmul_eq_mul]
      have hne : (regretSum.length : ℚ) ≠ 0 := by
        exact_mod_cast Nat.pos_iff_ne_zero.mp h
      field_simp

/-- Witness for C2 at the concrete regret vector [2, -1, 1]. -/
theorem compute_strategy_regret_matching_witness :
    (compute_strategy [(2 : ℚ), -1, 1]).sum = 1 :=
  (compute_strategy_regret_matching [(2 : ℚ), -1, 1] (by decide)).2.2.2

/-! ## StateNode as a mutable record, and the trainer's node mutations
(src/cfr/node.rs, src/cfr/policy/outcome_sampling.rs)

For the monotonicity claim we embed the StateNode record with its three
accumulator arrays (as total functions ℕ → ℚ; the Rust arrays have length
num_actions and all accesses are below that bound) and the exact sequence of
mutations a node undergoes during training:
* every visit calls compute_strategy (outcome_sampling.rs lines 87-92);
* when the active player is the traversing player, the node additionally
  receives the block of lines 144-174: a strategy recomputation, the regret
  accumulation, and the strategy-sum accumulation with weight
  reach_player * policy[a] / reach_chance.
Reach probabilities start at 1 and are multiplied by strategy /
sampling-probability entries, so they are nonnegative; this enters the step
relation as a hypothesis on the step parameters. -/

structure StateNode where
  numActions : ℕ
  regretSum : ℕ → ℚ
  strategySum : ℕ → ℚ
  strategy : ℕ → ℚ

/-- StateNode::new: all accumulators start at zero. -/
def StateNode.new (numActions : ℕ) : StateNode :=
  ⟨numActions, fun _ => 0, fun _ => 0, fun _ => 0⟩

/-- StateNode::compute_strategy on the record embedding: indices below
num_actions receive the regret-matching value, the rest of the (total)
function is unchanged junk that the Rust array does not have. -/
def node_compute_strategy (n : StateNode) : StateNode :=
  let clipped := fun i => if 0 < n.regretSum i then n.regretSum i else 0
  let normalizingSum := ((List.range n.numActions).map clipped).sum
  { n with strategy := fun i =>
      if i < n.numActions then
        (if 0 < normalizingSum then clipped i / normalizingSum
         else 1 / (n.numActions : ℚ))
      else n.strategy i }

/-- The regret-update loop of outcome_sampling.rs lines 157-164: for each
valid action a, regret_sum[a] += cf_action_value(a) - cf_value. -/
def node_update_regrets (n : StateNode) (valid : List ℕ)
    (cfActionValue : ℕ → ℚ) (cfValue : ℚ) : StateNode :=
  valid.foldl
    (fun m a =>
      let updated := Function.update m.regretSum a
        (m.regretSum a + (cfActionValue a - cfValue))
      { m with regretSum := updated })
    n

/-- The strategy-sum update loop of outcome_sampling.rs lines 166-174: for
each valid action a, strategy_sum[a] += reach_player * policy[a] /
reach_chance, where policy is the strategy snapshot recomputed at line 145. -/
def strategy_sum_step (policy : ℕ → ℚ) (reachPlayer reachChance : ℚ)
    (m : StateNode) (a : ℕ) : StateNode :=
  let updated := Function.update m.strategySum a
    (reachPlayer * policy a / reachChance + m.strategySum a)
  { m with strategySum := updated }

def node_update_strategy_sums (n : StateNode) (valid : List ℕ)
    (policy : ℕ → ℚ) (reachPlayer reachChance : ℚ) : StateNode :=
  valid.foldl (strategy_sum_step policy reachPlayer reachChance) n

/-- The whole lines 144-174 block executed at a node when the active player
is the traversing player: recompute the strategy (the snapshot
udpdated_policy), accumulate regrets, then accumulate the strategy sums
using that snapshot. -/
def node_traverser_update (n : StateNode) (valid : List ℕ)
    (cfActionValue : ℕ → ℚ) (cfValue : ℚ)
    (reachPlayer reachChance : ℚ) : StateNode :=
  let recomputed := node_compute_strategy n
  let afterRegrets := node_update_regrets recomputed valid cfActionValue cfValue
  node_update_strategy_sums afterRegrets valid recomputed.strategy
    reachPlayer reachChance

/-- One mutation of a StateNode issued by outcome_sampling_cfr during a
descent: either the plain compute_strategy of a visit (lines 87-92), or the
traversing player's full update block (lines 144-174). The reach
probabilities handed to the block are products of probabilities, hence
nonnegative, and the valid actions index into the arrays, hence are below
num_actions. -/
inductive TrainerStep : StateNode → StateNode → Prop
  | visit (n : StateNode) : TrainerStep n (node_compute_strategy n)
  | traverser (n : StateNode) (valid : List ℕ) (cfActionValue : ℕ → ℚ)
      (cfValue : ℚ) (reachPlayer reachChance : ℚ)
      (hrp : 0 ≤ reachPlayer) (hrc : 0 ≤ reachChance)
      (hvalid : ∀ a ∈ valid, a < n.numActions) :
      TrainerStep n
        (node_traverser_update n valid cfActionValue cfValue
          reachPlayer reachChance)

lemma node_compute_strategy_strategySum (n : StateNode) :
    (node_compute_strategy n).strategySum = n.strategySum := rfl

lemma node_compute_strategy_numActions (n : StateNode) :
    (node_compute_strategy n).numActions = n.numActions := rfl

lemma node_compute_strategy_nonneg (n : StateNode) (a : ℕ)
    (ha : a < n.numActions) : 0 ≤ (node_compute_strategy n).strategy a := by
  unfold node_compute_strategy
  simp only [ha, if_true]
  set clipped := fun i => if 0 < n.regretSum i then n.regretSum i else 0
    with hclip
  have hc : ∀ i, 0 ≤ clipped i := by
    intro i
    rw [hclip]
    dsimp only
    split
    · exact le_of_lt (by assumption)
    · exact le_refl 0
  split
  · exact div_nonneg (hc a) (le_of_lt (by assumption))
  · positivity

lemma node_update_regrets_strategySum (n : StateNode) (valid : List ℕ)
    (cfActionValue : ℕ → ℚ) (cfValue : ℚ) :
    (node_update_regrets n valid cfActionValue cfValue).strategySum
      = n.strategySum := by
  induction valid generalizing n with
  | nil => simp [node_update_regrets]
  | cons a t ih =>
    have hcons : node_update_regrets n (a :: t) cfActionValue cfValue
        = node_update_regrets
            (let updated := Function.update n.regretSum a
              (n.regretSum a + (cfActionValue a - cfValue))
             { n with regretSum := updated }) t cfActionValue cfValue := rfl
    rw [hcons, ih]

lemma node_update_strategy_sums_mono (valid : List ℕ) (n : StateNode)
    (policy : ℕ → ℚ) (reachPlayer reachChance : ℚ)
    (hrp : 0 ≤ reachPlayer) (hrc : 0 ≤ reachChance)
    (hpol : ∀ a ∈ valid, 0 ≤ policy a) (a : ℕ) :
    n.strategySum a ≤
      (node_update_strategy_sums n valid policy reachPlayer reachChance).strategySum a := by
  induction valid generalizing n with
  | nil => exact le_refl _
  | cons b t ih =>
    have hb : 0 ≤ policy b := hpol b (List.mem_cons_self b t)
    have hstep : n.strategySum a ≤
        (strategy_sum_step policy reachPlayer reachChance n b).strategySum a := by
      show n.strategySum a ≤ (Function.update n.strategySum b
          (reachPlayer * policy b / reachChance + n.strategySum b)) a
      by_cases hab : a = b
      · subst hab
        rw [Function.update_same]
        have : 0 ≤ reachPlayer * policy a / reachChance :=
          div_nonneg (mul_nonneg hrp hb) hrc
        linarith
      · rw [Function.update_noteq hab]
    have hcons : node_update_strategy_sums n (b :: t) policy reachPlayer reachChance
        = node_update_strategy_sums
            (strategy_sum_step policy reachPlayer reachChance n b) t policy
            reachPlayer reachChance := rfl
    rw [hcons]
    exact le_trans hstep
      (ih _ (fun c hc => hpol c (List.mem_cons_of_mem b hc)))

lemma trainer_step_strategySum_mono (n m : StateNode)
    (h : TrainerStep n m) (a : ℕ) : n.strategySum a ≤ m.strategySum a := by
  cases h with
  | visit => rw [node_compute_strategy_strategySum]
  | traverser valid cfActionValue cfValue reachPlayer reachChance hrp hrc hvalid =>
    unfold node_traverser_update
    have hbefore :
        (node_update_regrets (node_compute_strategy n) valid cfActionValue
          cfValue).strategySum a = n.strategySum a := by
      rw [node_update_regrets_strategySum, node_compute_strategy_strategySum]
    calc n.strategySum a
        = (node_update_regrets (node_compute_strategy n) valid cfActionValue
            cfValue).strategySum a := hbefore.symm
      _ ≤ _ := by
          refine node_update_strategy_sums_mono valid _ _ _ _ hrp hrc ?_ a
          intro b hb
          exact node_compute_strategy_nonneg n b (hvalid b hb)

/-- C8: over any sequence of trainer-issued mutations of a StateNode,
strategy_sum is coordinatewise non-decreasing: every outcome-sampling
update adds reach_player * policy[a] / reach_chance, which is nonnegative,
and no operation ever decreases strategy_sum. -/
theorem strategy_sum_monotone (n m : StateNode)
    (h : Relation.ReflTransGen TrainerStep n m) (a : ℕ) :
    n.strategySum a ≤ m.strategySum a := by
  induction h with
  | refl => exact le_refl _
  | tail _ hstep ih =>
    exact le_trans ih (trainer_step_strategySum_mono _ _ hstep a)

/-- Witness for C8: one traverser update on a fresh two-action node does not
decrease strategy_sum at action 0. -/
theorem strategy_sum_monotone_witness :
    (StateNode.new 2).strategySum 0 ≤
      (node_traverser_update (StateNode.new 2) [0, 1] (fun _ => 1) 0 1 1).strategySum 0 :=
  strategy_sum_monotone (StateNode.new 2)
    (node_traverser_update (StateNode.new 2) [0, 1] (fun _ => 1) 0 1 1)
    (Relation.ReflTransGen.single
      (TrainerStep.traverser (StateNode.new 2) [0, 1] (fun _ => 1) 0 1 1
        (by norm_num) (by norm_num) (by decide)))
    0

/-! ## Outcome-sampling action selection and the degenerate-sampling
fallback (src/cfr/policy/outcome_sampling.rs lines 94-107, 180-203)

sample_policy builds the sampling distribution over the whole action space
(zeros outside the valid actions); the sampled action is drawn from a
WeightedIndex over that array, and when its construction fails the code
falls back to a uniformly random valid action whose probability entry is
overwritten with 1/num_actions. Randomness is modelled by oracle
parameters: wSample for the WeightedIndex draw and uPick for the uniform
SliceRandom::choose. -/

/-- EPSILON = 0.6 of outcome_sampling.rs (an f32 constant, modelled as the
rational 3/5; no claim depends on its exact value). -/
def EPSILON : ℚ := 3 / 5

/-- Embedding of OutcomeSamplingPolicy::sample_policy: starting from
all-zero action probabilities, each valid action i receives
eps/|A_valid| + (1-eps)·strategy[i] when the active player is the
traversing player, and strategy[i] otherwise. -/
def sample_policy (strategy : ℕ → ℚ) (validActions : List ℕ)
    (activePlayerIsTraverser : Bool) : ℕ → ℚ :=
  validActions.foldl
    (fun actionProbs i =>
      Function.update actionProbs i
        (if activePlayerIsTraverser then
          EPSILON / (validActions.length : ℚ) + (1 - EPSILON) * strategy i
        else strategy i))
    (fun _ => 0)

/-- Modelled from the spec: WeightedIndex::new (external rand crate) fails
on the sampling distribution exactly in the degenerate all-zero case
(§4.8 of the spec; for a nonnegative, nonempty weight vector the crate
errors precisely when the total weight is zero). -/
def weighted_index_fails (probs : List ℚ) : Bool :=
  probs.all (fun x => x == 0)

/-- Embedding of outcome_sampling.rs lines 100-107: draw from the
WeightedIndex when it can be built; otherwise choose a uniformly random
valid action (unwrap panics, modelled as none, only when valid_actions is
empty) and overwrite its probability entry with 1/num_actions. -/
def select_sampled_action (actionProbs : ℕ → ℚ) (numActions : ℕ)
    (validActions : List ℕ) (wSample uPick : ℕ) :
    Option (ℕ × (ℕ → ℚ)) :=
  if weighted_index_fails ((List.range numActions).map actionProbs) then
    match validActions.get? (uPick % validActions.length) with
    | none => none
    | some a => some (a, Function.update actionProbs a (1 / (numActions : ℚ)))
  else
    some (wSample, actionProbs)

lemma sample_policy_eq_zero_outside (strategy : ℕ → ℚ)
    (validActions : List ℕ) (activePlayerIsTraverser : Bool) (i : ℕ)
    (hi : i ∉ validActions) :
    sample_policy strategy validActions activePlayerIsTraverser i = 0 := by
  unfold sample_policy
  have : ∀ (init : ℕ → ℚ) (l : List ℕ), (∀ j ∈ l, j ∈ validActions) →
      init i = 0 →
      (l.foldl (fun actionProbs j =>
        Function.update actionProbs j
          (if activePlayerIsTraverser then
            EPSILON / (validActions.length : ℚ) + (1 - EPSILON) * strategy j
          else strategy j)) init) i = 0 := by
    intro init l
    induction l generalizing init with
    | nil => intro _ h0; exact h0
    | cons b t ih =>
      intro hmem h0
      rw [List.foldl_cons]
      refine ih _ (fun j hj => hmem j (List.mem_cons_of_mem b hj)) ?_
      have hne : i ≠ b := by
        intro hib
        exact hi (hib ▸ hmem b (List.mem_cons_self b t))
      rw [Function.update_noteq hne, h0]
  exact this _ validActions (fun j hj => hj) rfl

/-- C9: at a non-terminal state with a non-empty valid-action list, if the
sampling distribution is all zero over the valid actions, the fallback
selects some valid action (never aborts) and sets its probability entry to
1/num_actions, where num_actions is the total action-space size. -/
theorem degenerate_sampling_fallback (strategy : ℕ → ℚ)
    (validActions : List ℕ) (activePlayerIsTraverser : Bool)
    (numActions wSample uPick : ℕ)
    (hne : validActions ≠ [])
    (hzero : ∀ a ∈ validActions,
      sample_policy strategy validActions activePlayerIsTraverser a = 0) :
    ∃ a probs,
      select_sampled_action
        (sample_policy strategy validActions activePlayerIsTraverser)
        numActions validActions wSample uPick = some (a, probs) ∧
      a ∈ validActions ∧ probs a = 1 / (numActions : ℚ) := by
  set q := sample_policy strategy validActions activePlayerIsTraverser with hq
  have hallzero : ∀ i, q i = 0 := by
    intro i
    by_cases hmem : i ∈ validActions
    · exact hzero i hmem
    · exact sample_policy_eq_zero_outside _ _ _ i hmem
  have hfails : weighted_index_fails ((List.range numActions).map q) = true := by
    unfold weighted_index_fails
    rw [List.all_eq_true]
    intro x hx
    rcases List.mem_map.mp hx with ⟨j, _, hj⟩
    rw [← hj, hallzero j]
    rfl
  have hlen : 0 < validActions.length := List.length_pos.mpr hne
  have hget : ∃ a, validActions.get? (uPick % validActions.length) = some a := by
    have : uPick % validActions.length < validActions.length :=
      Nat.mod_lt _ hlen
    cases hg : validActions.get? (uPick % validActions.length) with
    | none => exact absurd (List.get?_eq_none.mp hg) (by omega)
    | some a => exact ⟨a, rfl⟩
  rcases hget with ⟨a, ha⟩
  refine ⟨a, Function.update q a (1 / (numActions : ℚ)), ?_, ?_, ?_⟩
  · unfold select_sampled_action
    rw [hfails]
    simp only [if_true, ha]
  · exact List.get?_mem ha
  · rw [Function.update_same]

/-- Witness for C9: two total actions, single valid action 0, opponent
node with the all-zero strategy. -/
theorem degenerate_sampling_fallback_witness :
    ∃ a probs,
      select_sampled_action
        (sample_policy (fun _ => 0) [0] false) 2 [0] 0 0 = some (a, probs) ∧
      a ∈ [0] ∧ probs a = 1 / ((2 : ℕ) : ℚ) :=
  degenerate_sampling_fallback (fun _ => 0) [0] false 2 0 0
    (by decide)
    (by
      intro a ha
      have h0 : a = 0 := by simpa using ha
      subst h0
      rfl)

/-! ## Scrabble primitives (src/scrabble/util.rs, board.rs, bag.rs, rack.rs)

BOARD_SIZE = 15. Positions carry Fin 15 coordinates so that every
constructed Position is on the board, matching the bounds checking done by
Position::next / Position::prev. -/

def BOARD_SIZE : ℕ := 15

inductive Letter
  | Blank
  | Letter (c : Char)
  deriving DecidableEq, Repr

inductive SquareEffect
  | DoubleWord
  | DoubleLetter
  | TripleWord
  | TripleLetter
  | Center
  deriving DecidableEq, Repr

inductive Tile
  | Empty
  | Special (effect : SquareEffect)
  | Letter (letter : Letter)
  deriving DecidableEq, Repr

inductive Direction
  | Across
  | Down
  deriving DecidableEq, Repr

def Direction.flip : Direction → Direction
  | .Across => .Down
  | .Down => .Across

structure Position where
  row : Fin 15
  col : Fin 15
  deriving DecidableEq, Repr

/-- Position::next: step forward in the direction, none at the edge. -/
def Position.next (p : Position) (dir : Direction) : Option Position :=
  match dir with
  | .Across =>
    if h : p.col.val < BOARD_SIZE - 1 then
      some ⟨p.row, ⟨p.col.val + 1, by simp [BOARD_SIZE] at h; omega⟩⟩
    else none
  | .Down =>
    if h : p.row.val < BOARD_SIZE - 1 then
      some ⟨⟨p.row.val + 1, by simp [BOARD_SIZE] at h; omega⟩, p.col⟩
    else none

/-- Position::prev: step backward in the direction, none at the edge. -/
def Position.prev (p : Position) (dir : Direction) : Option Position :=
  match dir with
  | .Across =>
    if h : p.col.val ≠ 0 then
      some ⟨p.row, ⟨p.col.val - 1, by omega⟩⟩
    else none
  | .Down =>
    if h : p.row.val ≠ 0 then
      some ⟨⟨p.row.val - 1, by omega⟩, p.col⟩
    else none

/-- Position::step_n: move forward a fixed number of steps. -/
def Position.step_n (p : Position) (n : ℕ) (dir : Direction) : Option Position :=
  match n with
  | 0 => some p
  | m + 1 =>
    match p.next dir with
    | some q => q.step_n m dir
    | none => none

/-- Bag::score via the scores HashMap built in Bag::default (bag.rs lines
51-64): the standard letter values; a blank and any non-A..Z character
score 0 (HashMap miss returns 0, bag.rs lines 88-93). Every bag the
program constructs carries this same table. -/
def bag_score : Letter → ℤ
  | .Blank => 0
  | .Letter c =>
    match c with
    | 'A' => 1 | 'B' => 3 | 'C' => 3 | 'D' => 2 | 'E' => 1 | 'F' => 4
    | 'G' => 2 | 'H' => 4 | 'I' => 1 | 'J' => 8 | 'K' => 5 | 'L' => 1
    | 'M' => 3 | 'N' => 1 | 'O' => 1 | 'P' => 3 | 'Q' => 10 | 'R' => 1
    | 'S' => 1 | 'T' => 1 | 'U' => 1 | 'V' => 4 | 'W' => 4 | 'X' => 8
    | 'Y' => 4 | 'Z' => 10
    | _ => 0

/-- Bag: the tile multiset (draw order) plus the randomization flag; the
score table is the fixed bag_score above. -/
structure Bag where
  distribution : List Letter
  random : Bool

structure Placement where
  word : List Char
  pos : Position
  dir : Direction
  deriving DecidableEq, Repr

/-- ScrabbleBoard: the 15x15 tile grid, the positions of placed blanks and
the placement log. -/
structure ScrabbleBoard where
  state : Position → Tile
  blanks : List Position
  placements : List Placement

/-- ScrabbleBoard::empty (board.rs lines 42-49): every cell of the grid is
Tile::Empty; no blanks, no placements. -/
def ScrabbleBoard.empty : ScrabbleBoard :=
  ⟨fun _ => Tile.Empty, [], []⟩

/-- The board of the initial state built by ScrabbleGame::start (state.rs
line 294): it is exactly ScrabbleBoard::empty(). -/
def start_board : ScrabbleBoard := ScrabbleBoard.empty

/-- The standard premium layout of spec §6, as the spec states it (used
only to compare the actual initial board against the claim). -/
def premium_layout (p : Position) : Tile :=
  let r := p.row.val
  let c := p.col.val
  if (r, c) = (7, 7) then Tile.Special SquareEffect.Center
  else if (r, c) ∈ [(0,0),(0,7),(0,14),(7,0),(7,14),(14,0),(14,7),(14,14)] then
    Tile.Special SquareEffect.TripleWord
  else if (r, c) ∈ [(1,1),(2,2),(3,3),(4,4),(10,10),(11,11),(12,12),(13,13),
      (1,13),(2,12),(3,11),(4,10),(10,4),(11,3),(12,2),(13,1)] then
    Tile.Special SquareEffect.DoubleWord
  else if (r, c) ∈ [(1,5),(1,9),(5,1),(5,5),(5,9),(5,13),(9,1),(9,5),(9,9),
      (9,13),(13,5),(13,9)] then
    Tile.Special SquareEffect.TripleLetter
  else if (r, c) ∈ [(0,3),(0,11),(2,6),(2,8),(3,0),(3,7),(3,14),(6,2),(6,6),
      (6,8),(6,12),(7,3),(7,11),(8,2),(8,6),(8,8),(8,12),(11,0),(11,7),
      (11,14),(12,6),(12,8),(14,3),(14,11)] then
    Tile.Special SquareEffect.DoubleLetter
  else Tile.Empty

/-- C4 counterexample: the initial board of ScrabbleGame::start leaves the
center cell (7,7) Empty, not Premium(Center) as the claim requires. -/
theorem start_board_missing_center :
    start_board.state ⟨7, 7⟩ = Tile.Empty ∧
    premium_layout ⟨7, 7⟩ = Tile.Special SquareEffect.Center ∧
    Tile.Empty ≠ Tile.Special SquareEffect.Center := by
  refine ⟨rfl, by decide, by decide⟩

/-- C4 amended: the board of the initial state returned by
ScrabbleGame::start carries no premium squares at all; every one of its
225 cells is Empty. -/
theorem start_board_all_empty (p : Position) :
    start_board.state p = Tile.Empty := rfl

/-! ## Cross sums (src/scrabble/board.rs lines 118-150 and 229-232)

calculate_cross_sums returns a two-slot array indexed by the enumeration
order of Direction::iter() = [Across, Down]; the slot for scan direction d
holds, for every cell, the sum of bag scores of the letters on the
contiguous runs immediately following and preceding the cell along d
(iter_next / iter_prev with take_while(is_letter)), or -1 when both runs
are empty. We embed the array as a function of the scan Direction. -/

/-- ScrabbleBoard::is_letter. -/
def ScrabbleBoard.is_letter (b : ScrabbleBoard) (p : Position) : Bool :=
  match b.state p with
  | Tile.Letter _ => true
  | _ => false

/-- The positions yielded by pos.iter_next(dir).take_while(is_letter):
the contiguous run of letter cells strictly after pos along dir. The fuel
bounds the walk; 15 steps always suffice on a 15-wide board. -/
def letter_run_next (b : ScrabbleBoard) : ℕ → Position → Direction → List Position
  | 0, _, _ => []
  | fuel + 1, p, dir =>
    match p.next dir with
    | none => []
    | some q => if b.is_letter q then q :: letter_run_next b fuel q dir else []

/-- The positions yielded by pos.iter_prev(dir).take_while(is_letter). -/
def letter_run_prev (b : ScrabbleBoard) : ℕ → Position → Direction → List Position
  | 0, _, _ => []
  | fuel + 1, p, dir =>
    match p.prev dir with
    | none => []
    | some q => if b.is_letter q then q :: letter_run_prev b fuel q dir else []

/-- The body of calculate_cross_sums for one cell and one scan direction:
walk both runs; if any letter was found, sum bag.score over the letters
seen, else record -1. -/
def calculate_cross_sums (b : ScrabbleBoard) (dir : Direction) (p : Position) : ℤ :=
  let run := letter_run_next b BOARD_SIZE p dir ++ letter_run_prev b BOARD_SIZE p dir
  if run.isEmpty then -1
  else (run.map (fun q =>
    match b.state q with
    | Tile.Letter l => bag_score l
    | _ => 0)).sum

/-- The cross-sum slot calculate_moves hands to ScrabbleBoard::score for a
move in direction d (board.rs lines 229-232): slot 0 (scan direction
Across) for across moves, slot 1 (scan direction Down) for down moves. -/
def score_cross_sums_for (b : ScrabbleBoard) (d : Direction) :
    Position → ℤ :=
  match d with
  | .Across => calculate_cross_sums b .Across
  | .Down => calculate_cross_sums b .Down

/-- Spec-side: the letters contiguously adjacent to p in the axis opposite
to the given axis, read as the forward run followed by the backward run. -/
def adjacent_letters_next (b : ScrabbleBoard) : ℕ → Position → Direction → List Letter
  | 0, _, _ => []
  | fuel + 1, p, dir =>
    match p.next dir with
    | none => []
    | some q =>
      match b.state q with
      | Tile.Letter l => l :: adjacent_letters_next b fuel q dir
      | _ => []

def adjacent_letters_prev (b : ScrabbleBoard) : ℕ → Position → Direction → List Letter
  | 0, _, _ => []
  | fuel + 1, p, dir =>
    match p.prev dir with
    | none => []
    | some q =>
      match b.state q with
      | Tile.Letter l => l :: adjacent_letters_prev b fuel q dir
      | _ => []

def opposite_axis_letters (b : ScrabbleBoard) (fuel : ℕ) (p : Position)
    (axis : Direction) : List Letter :=
  adjacent_letters_next b fuel p axis.flip ++ adjacent_letters_prev b fuel p axis.flip

/-- Spec-side cross sum for a cell and an axis: -1 when no letter is
adjacent in the opposite axis, otherwise the sum of the point values of
the adjacent letters, a blank-placed letter contributing nothing. -/
def spec_cross_sum (b : ScrabbleBoard) (axis : Direction) (p : Position) : ℤ :=
  match opposite_axis_letters b BOARD_SIZE p axis with
  | [] => -1
  | letters => (letters.map (fun l =>
      match l with
      | Letter.Blank => 0
      | Letter.Letter c => bag_score (Letter.Letter c))).sum

lemma letters_next_eq (b : ScrabbleBoard) (fuel : ℕ) (p : Position)
    (dir : Direction) :
    adjacent_letters_next b fuel p dir
      = (letter_run_next b fuel p dir).map (fun q =>
          match b.state q with
          | Tile.Letter l => l
          | _ => Letter.Blank) := by
  induction fuel generalizing p with
  | zero => rfl
  | succ f ih =>
    unfold adjacent_letters_next letter_run_next
    cases hn : p.next dir with
    | none => rfl
    | some q =>
      simp only
      cases hs : b.state q with
      | Letter l =>
        have hl : b.is_letter q = true := by
          unfold ScrabbleBoard.is_letter
          rw [hs]

        rw [hl]
        simp [ih, hs]
      | Empty =>
        have hl : b.is_letter q = false := by
          unfold ScrabbleBoard.is_letter
          rw [hs]
        rw [hl]
        simp
      | Special e =>
        have hl : b.is_letter q = false := by
          unfold ScrabbleBoard.is_letter
          rw [hs]
        rw [hl]
        simp

lemma letters_prev_eq (b : ScrabbleBoard) (fuel : ℕ) (p : Position)
    (dir : Direction) :
    adjacent_letters_prev b fuel p dir
      = (letter_run_prev b fuel p dir).map (fun q =>
          match b.state q with
          | Tile.Letter l => l
          | _ => Letter.Blank) := by
  induction fuel generalizing p with
  | zero => rfl
  | succ f ih =>
    unfold adjacent_letters_prev letter_run_prev
    cases hn : p.prev dir with
    | none => rfl
    | some q =>
      simp only
      cases hs : b.state q with
      | Letter l =>
        have hl : b.is_letter q = true := by
          unfold ScrabbleBoard.is_letter
          rw [hs]
        rw [hl]
        simp [ih, hs]
      | Empty =>
        have hl : b.is_letter q = false := by
          unfold ScrabbleBoard.is_letter
          rw [hs]
        rw [hl]
        simp
      | Special e =>
        have hl : b.is_letter q = false := by
          unfold ScrabbleBoard.is_letter
          rw [hs]
        rw [hl]
        simp

lemma flip_flip (d : Direction) : d.flip.flip = d := by
  cases d <;> rfl

lemma cell_score_eq (b : ScrabbleBoard) (r : Position) :
    (match b.state r with
     | Tile.Letter l => bag_score l
     | _ => (0 : ℤ))
    = (match (match b.state r with
        | Tile.Letter l => l
        | _ => Letter.Blank) with
      | Letter.Blank => 0
      | Letter.Letter c => bag_score (Letter.Letter c)) := by
  cases hs : b.state r with
  | Letter l =>
    simp only [hs]
    cases l <;> rfl
  | Empty => simp only [hs]
  | Special e => simp only [hs]

lemma cross_branch_eq (b : ScrabbleBoard) (run : List Position) :
    (if run.isEmpty then (-1 : ℤ)
     else (run.map (fun q =>
        match b.state q with
        | Tile.Letter l => bag_score l
        | _ => 0)).sum)
    = (match run.map (fun q =>
          match b.state q with
          | Tile.Letter l => l
          | _ => Letter.Blank) with
      | [] => -1
      | letters => (letters.map (fun l =>
          match l with
          | Letter.Blank => 0
          | Letter.Letter c => bag_score (Letter.Letter c))).sum) := by
  cases run with
  | nil => rfl
  | cons q t =>
    simp only [List.isEmpty_cons, Bool.false_eq_true, if_false, List.map_cons]
    rw [List.sum_cons, List.sum_cons, cell_score_eq b q, List.map_map]
    congr 1
    refine congrArg List.sum (List.map_congr_left ?_)
    intro r hr
    simp only [Function.comp]
    exact cell_score_eq b r

/-- C5: (1) the cross-sum slot named by an axis in the spec's convention
(the slot whose scan direction is the opposite axis) holds exactly the sum
of the point values of the letters contiguously adjacent in the opposite
axis, blanks contributing nothing, and -1 when there is no such adjacent
letter; (2) scoring a move placed in direction d uses the cross sums of
the axis opposite to d, i.e. the slot handed to score by calculate_moves
for d-moves is that very slot of axis flip d. -/
theorem cross_sums_spec (b : ScrabbleBoard) (axis : Direction) (p : Position) :
    calculate_cross_sums b axis.flip p = spec_cross_sum b axis p ∧
    (∀ d, score_cross_sums_for b d p = spec_cross_sum b d.flip p) := by
  have main : ∀ ax : Direction,
      calculate_cross_sums b ax.flip p = spec_cross_sum b ax p := by
    intro ax
    have lhs_eq : calculate_cross_sums b ax.flip p
        = (if (letter_run_next b BOARD_SIZE p ax.flip
            ++ letter_run_prev b BOARD_SIZE p ax.flip).isEmpty then (-1 : ℤ)
          else ((letter_run_next b BOARD_SIZE p ax.flip
            ++ letter_run_prev b BOARD_SIZE p ax.flip).map (fun q =>
              match b.state q with
              | Tile.Letter l => bag_score l
              | _ => 0)).sum) := rfl
    have rhs_eq : spec_cross_sum b ax p
        = (match (adjacent_letters_next b BOARD_SIZE p ax.flip
            ++ adjacent_letters_prev b BOARD_SIZE p ax.flip) with
          | [] => -1
          | letters => (letters.map (fun l =>
              match l with
              | Letter.Blank => 0
              | Letter.Letter c => bag_score (Letter.Letter c))).sum) := rfl
    rw [lhs_eq, rhs_eq, letters_next_eq, letters_prev_eq, ← List.map_append]
    exact cross_branch_eq b _
  refine ⟨main axis, ?_⟩
  intro d
  have hslot : score_cross_sums_for b d p = calculate_cross_sums b d p := by
    cases d <;> rfl
  rw [hslot]
  have hmain := main d.flip
  rw [flip_flip] at hmain
  exact hmain

/-! ## Word-search automaton (src/scrabble/word_search.rs,
src/scrabble/constraints.rs, src/scrabble/letter_set.rs)

The automaton state is Option WordSearcherState; the searcher holds the
constraint line, the starting rack and the minimum word length. -/

set_option maxRecDepth 4096

/-- LetterSet: a dense 256-bit membership set (letter_set.rs). -/
structure LetterSet where
  accepted : Fin 256 → Bool

def LetterSet.empty : LetterSet := ⟨fun _ => false⟩

def LetterSet.any : LetterSet := ⟨fun _ => true⟩

def LetterSet.is_empty (s : LetterSet) : Bool :=
  decide (∀ i, s.accepted i = false)

/-- ConstrainedTile (constraints.rs lines 11-15): either a cell already
filled with a letter, or an empty cell with its cross-check letter set. -/
inductive ConstrainedTile
  | Filled (l : Letter)
  | Letters (ls : LetterSet)

/-- TrayRemaining (word_search.rs lines 14-20): the per-letter histogram,
the blank count and the running total of remaining tiles. -/
structure TrayRemaining where
  letters : ℕ → ℕ
  n_blanks : ℕ
  n_total : ℕ

/-- TrayRemaining::remove: consume one copy of the letter if present. -/
def TrayRemaining.remove (t : TrayRemaining) (letter : Char) :
    Option TrayRemaining :=
  if 0 < t.letters letter.toNat then
    some { t with
      letters := Function.update t.letters letter.toNat (t.letters letter.toNat - 1),
      n_total := t.n_total - 1 }
  else none

/-- TrayRemaining::remove_wildcard: consume one blank if present. -/
def TrayRemaining.remove_wildcard (t : TrayRemaining) : Option TrayRemaining :=
  if 0 < t.n_blanks then
    some { t with n_blanks := t.n_blanks - 1, n_total := t.n_total - 1 }
  else none

/-- BlankAssignmentList (word_search.rs lines 45-49): each element carries
only the character assigned to a consumed blank (the Rc tail becomes a
plain inductive tail). -/
inductive BlankAssignmentList
  | Empty
  | Elem (assig : Char) (rest : BlankAssignmentList)
  deriving DecidableEq, Repr

structure WordSearcherState where
  position : ℕ
  blank_assignments : BlankAssignmentList
  rack : TrayRemaining

structure WordSearcher where
  line : List ConstrainedTile
  rack : TrayRemaining
  min_length : ℕ

/-- Automaton::start for WordSearcher. -/
def ws_start (w : WordSearcher) : Option WordSearcherState :=
  some ⟨0, BlankAssignmentList.Empty, w.rack⟩

/-- Automaton::is_match for WordSearcher (word_search.rs lines 93-114). -/
def ws_is_match (w : WordSearcher) (st : Option WordSearcherState) : Bool :=
  match st with
  | none => false
  | some s =>
    match w.line.get? s.position with
    | some (ConstrainedTile.Filled _) => false
    | _ =>
      if w.rack.n_total == s.rack.n_total then false
      else if s.position < w.min_length then false
      else true

/-- Automaton::accept for WordSearcher (word_search.rs lines 116-175). -/
def ws_accept (w : WordSearcher) (st : Option WordSearcherState) (byte : ℕ) :
    Option WordSearcherState :=
  let letter : Char := Char.ofNat byte
  st.bind fun s =>
    match w.line.get? s.position with
    | none => none
    | some (ConstrainedTile.Filled Letter.Blank) =>
      some { position := s.position + 1,
             blank_assignments := s.blank_assignments,
             rack := s.rack }
    | some (ConstrainedTile.Filled (Letter.Letter l)) =>
      if l = letter then
        some { position := s.position + 1,
               blank_assignments := s.blank_assignments,
               rack := s.rack }
      else none
    | some (ConstrainedTile.Letters ls) =>
      if ls.is_empty then none
      else
        match s.rack.remove letter with
        | some newRack =>
          some { position := s.position + 1,
                 blank_assignments := s.blank_assignments,
                 rack := newRack }
        | none =>
          match s.rack.remove_wildcard with
          | some newRack =>
            some { position := s.position + 1,
                   blank_assignments :=
                     BlankAssignmentList.Elem letter s.blank_assignments,
                   rack := newRack }
          | none => none

lemma ws_match_tail_iff (a b mi po : ℕ) (hreach : b ≤ a) :
    ((if a == b then false else if po < mi then false else true) = true)
      ↔ (mi ≤ po ∧ b < a) := by
  by_cases he : a = b
  · subst he
    simp
  · have hb : (a == b) = false := beq_eq_false_iff_ne.mpr he
    rw [hb]
    simp only [Bool.false_eq_true, if_false]
    by_cases hp : po < mi
    · rw [if_pos hp]
      constructor
      · intro hcontra
        exact absurd hcontra (by simp)
      · intro hcon
        omega
    · rw [if_neg hp]
      constructor
      · intro _
        omega
      · intro _
        rfl

/-- C6: for states with no more tiles than the start rack (every reachable
state, since transitions only consume tiles), is_match accepts exactly when
the position has reached the minimum length, the line cell at the position
is not Filled, and at least one rack tile has been consumed since the start
state. -/
theorem ws_is_match_spec (w : WordSearcher) (s : WordSearcherState)
    (hreach : s.rack.n_total ≤ w.rack.n_total) :
    ws_is_match w (some s) = true ↔
      (w.min_length ≤ s.position ∧
        (∀ l, w.line.get? s.position ≠ some (ConstrainedTile.Filled l)) ∧
        s.rack.n_total < w.rack.n_total) := by
  have hform : ws_is_match w (some s)
      = (match w.line.get? s.position with
        | some (ConstrainedTile.Filled _) => false
        | _ =>
          if w.rack.n_total == s.rack.n_total then false
          else if s.position < w.min_length then false
          else true) := rfl
  rw [hform]
  cases hg : w.line.get? s.position with
  | none =>
    dsimp only
    rw [ws_match_tail_iff w.rack.n_total s.rack.n_total w.min_length
      s.position hreach]
    constructor
    · rintro ⟨h1, h2⟩
      exact ⟨h1, fun l hc => Option.noConfusion hc, h2⟩
    · rintro ⟨h1, _, h2⟩
      exact ⟨h1, h2⟩
  | some tile =>
    cases tile with
    | Filled l =>
      dsimp only
      constructor
      · intro hcontra
        exact absurd hcontra (by simp)
      · rintro ⟨_, hnot, _⟩
        exact absurd rfl (hnot l)
    | Letters ls =>
      dsimp only
      rw [ws_match_tail_iff w.rack.n_total s.rack.n_total w.min_length
        s.position hreach]
      constructor
      · rintro ⟨h1, h2⟩
        refine ⟨h1, ?_, h2⟩
        intro l hc
        exact ConstrainedTile.noConfusion (Option.some.inj hc)
      · rintro ⟨h1, _, h2⟩
        exact ⟨h1, h2⟩

/-- Witness for C6: a one-cell open line, min_length 1, a state at position
1 that has consumed the single rack tile. -/
theorem ws_is_match_spec_witness :
    ws_is_match
      ⟨[ConstrainedTile.Letters LetterSet.any], ⟨fun _ => 0, 1, 1⟩, 1⟩
      (some ⟨1, BlankAssignmentList.Empty, ⟨fun _ => 0, 0, 0⟩⟩) = true ↔
      ((1 : ℕ) ≤ 1 ∧
        (∀ l, ([ConstrainedTile.Letters LetterSet.any] :
            List ConstrainedTile).get? 1 ≠ some (ConstrainedTile.Filled l)) ∧
        (0 : ℕ) < 1) :=
  ws_is_match_spec
    ⟨[ConstrainedTile.Letters LetterSet.any], ⟨fun _ => 0, 1, 1⟩, 1⟩
    ⟨1, BlankAssignmentList.Empty, ⟨fun _ => 0, 0, 0⟩⟩
    (by decide)

/-- C7 (code evaluation at the failing input): accepting the byte of A from
the start state, on a line whose first cell is an unconstrained empty cell,
with a rack holding a single blank, consumes the blank and records only the
assigned character A in blank_assignments; no position-in-word is recorded
anywhere in the automaton state, so the emitted word cannot be lower-cased
at the blank's offset as the claim (and the consumer in board.rs lines
214-221, which reads a (char, position) pair out of each entry) requires. -/
theorem ws_accept_blank_records_no_position :
    ws_accept
      ⟨[ConstrainedTile.Letters LetterSet.any], ⟨fun _ => 0, 1, 1⟩, 1⟩
      (ws_start ⟨[ConstrainedTile.Letters LetterSet.any], ⟨fun _ => 0, 1, 1⟩, 1⟩)
      65
    = some ⟨1, BlankAssignmentList.Elem 'A' BlankAssignmentList.Empty,
        ⟨fun _ => 0, 0, 0⟩⟩ := by
  rfl

/-! ## Flat-index helpers (src/scrabble/util.rs lines 263-296) -/

/-- util::dim_to_stride: walk the dimensions from the back, inserting the
running stride at the front. -/
def dim_to_stride (dim : List ℕ) : List ℕ :=
  (dim.reverse.foldl (fun st i => (st.2 :: st.1, st.2 * i)) (([] : List ℕ), 1)).1

/-- util::coord_to_index. -/
def coord_to_index (coord dim : List ℕ) : ℕ :=
  ((coord.zip (dim_to_stride dim)).map (fun p => p.1 * p.2)).sum

/-- util::index_to_coord. -/
def index_to_coord (idx : ℕ) (dim : List ℕ) : List ℕ :=
  (List.range dim.length).map
    (fun i => (idx / (dim_to_stride dim).getD i 0) % dim.getD i 0)

/-! ## MoveGrid (src/scrabble/state.rs lines 19-98)

MoveGrid::build buckets candidate moves by (row, col, word length - 2);
we embed the bucket array as a total function of the three indices and
parametrize build by the move list produced by
ScrabbleBoard::calculate_moves. -/

def MAX_LENGTH : ℕ := 7

structure Move where
  word : List Char
  pos : Position
  dir : Direction
  score : ℤ
  deriving DecidableEq, Repr

structure MoveGrid where
  move_ids : ℕ → ℕ → ℕ → List ℕ
  best_move_id : ℕ
  moves : List Move

def update3 {α : Type} (f : ℕ → ℕ → ℕ → α) (a b c : ℕ) (v : α) :
    ℕ → ℕ → ℕ → α :=
  fun x y z => if x = a ∧ y = b ∧ z = c then v else f x y z

/-- Embedding of MoveGrid::build (state.rs lines 32-63) over the list of
moves computed by calculate_moves: iterate over the enumerated moves; skip
words longer than MAX_LENGTH + 1; when a move strictly beats the bucket's
running maximum, record the new maximum and clear the bucket; separately
track the globally best move (strict improvement over a running best
initialised to 0); finally push the move id into its bucket
(unconditionally, as the source does). -/
def MoveGrid.build (moves : List Move) : MoveGrid :=
  let init : (ℕ → ℕ → ℕ → List ℕ) × (ℕ → ℕ → ℕ → ℤ) × ℕ × ℤ :=
    (fun _ _ _ => [], fun _ _ _ => 0, 0, 0)
  let final := moves.enum.foldl
    (fun st im =>
      let i := im.1
      let m := im.2
      let ids := st.1
      let maxScores := st.2.1
      let bestId := st.2.2.1
      let bestScore := st.2.2.2
      let lenIdx := m.word.length - 2
      if MAX_LENGTH ≤ lenIdx then st
      else
        let r := m.pos.row.val
        let c := m.pos.col.val
        let cleared :=
          if maxScores r c lenIdx < m.score then
            (update3 ids r c lenIdx [], update3 maxScores r c lenIdx m.score)
          else (ids, maxScores)
        let best2 := if bestScore < m.score then (i, m.score) else (bestId, bestScore)
        let pushed := update3 cleared.1 r c lenIdx (cleared.1 r c lenIdx ++ [i])
        (pushed, cleared.2, best2.1, best2.2))
    init
  { move_ids := final.1, best_move_id := final.2.2.1, moves := moves }

/-- Embedding of MoveGrid::get_move (state.rs lines 65-79): action 0
resolves through best_move_id; any other action id is decoded into a
(row, col, length) bucket and a uniformly random id of that bucket is
returned (rng is the oracle index; choosing from an empty bucket unwraps
None, modelled as none). -/
def MoveGrid.get_move (g : MoveGrid) (action_id : ℕ) (rng : ℕ) : Option Move :=
  if action_id = 0 then g.moves.get? g.best_move_id
  else
    let idx := action_id - 1
    let coord := index_to_coord idx [BOARD_SIZE, BOARD_SIZE, MAX_LENGTH]
    let bucket := g.move_ids (coord.getD 0 0) (coord.getD 1 0) (coord.getD 2 0)
    match bucket.get? (rng % bucket.length) with
    | none => none
    | some mid => g.moves.get? mid

/-- C3 counterexample: two candidate moves landing in the same
(row, col, length) bucket with scores 5 then 3. MoveGrid::build keeps BOTH
ids in the bucket (the push at state.rs line 55 is unconditional), so the
bucket does not store only the single best-scoring move, and get_move can
resolve the bucket's action id (1 + flatten(7,7,2) = 787) to the
strictly-worse second move. -/
theorem move_grid_keeps_worse_move :
    (MoveGrid.build
      [⟨['W','O','R','D'], ⟨7,7⟩, Direction.Across, 5⟩,
       ⟨['W','O','R','S'], ⟨7,7⟩, Direction.Down, 3⟩]).move_ids 7 7 2
      = [0, 1] ∧
    (MoveGrid.build
      [⟨['W','O','R','D'], ⟨7,7⟩, Direction.Across, 5⟩,
       ⟨['W','O','R','S'], ⟨7,7⟩, Direction.Down, 3⟩]).get_move 787 1
      = some ⟨['W','O','R','S'], ⟨7,7⟩, Direction.Down, 3⟩ ∧
    (⟨['W','O','R','S'], ⟨7,7⟩, Direction.Down, 3⟩ : Move).score
      < (⟨['W','O','R','D'], ⟨7,7⟩, Direction.Across, 5⟩ : Move).score := by
  refine ⟨by decide, by decide, by decide⟩

/-! ## Rack and Bag mutation (src/scrabble/rack.rs, src/scrabble/bag.rs) -/

structure Rack where
  letters : ℕ → ℕ
  n_blanks : ℕ
  n_total : ℕ

def Rack.empty : Rack := ⟨fun _ => 0, 0, 0⟩

/-- Rack::add_inplace. -/
def Rack.add_inplace (r : Rack) (l : Letter) : Rack :=
  match l with
  | Letter.Blank =>
    { r with n_blanks := r.n_blanks + 1, n_total := r.n_total + 1 }
  | Letter.Letter c =>
    { r with
      letters := Function.update r.letters c.toNat (r.letters c.toNat + 1),
      n_total := r.n_total + 1 }

/-- Rack::remove_inplace (unchecked; u8 underflow modelled by truncated
Nat subtraction, never reached on the racks the game constructs). -/
def Rack.remove_inplace (r : Rack) (l : Letter) : Rack :=
  match l with
  | Letter.Blank =>
    { r with n_blanks := r.n_blanks - 1, n_total := r.n_total - 1 }
  | Letter.Letter c =>
    { r with
      letters := Function.update r.letters c.toNat (r.letters c.toNat - 1),
      n_total := r.n_total - 1 }

/-- Modelled randomness for the external rand crate's choose_multiple: the
oracle list supplies the index drawn at each step; each drawn tile leaves
the pool. -/
def choose_multiple : List Letter → ℕ → List ℕ → List Letter
  | _, 0, _ => []
  | _, _ + 1, [] => []
  | pool, k + 1, p :: ps =>
    if pool.length = 0 then []
    else
      match pool.get? (p % pool.length) with
      | some t => t :: choose_multiple (pool.eraseIdx (p % pool.length)) k ps
      | none => []

/-- Bag::draw_tiles (bag.rs lines 95-112): draw n tiles (randomly via the
oracle when the bag is randomized, else the first n of the deterministic
order), then delete the first occurrence of each drawn tile from the
distribution. -/
def Bag.draw_tiles (b : Bag) (n : ℕ) (picks : List ℕ) : List Letter × Bag :=
  let tiles :=
    if b.random then choose_multiple b.distribution n picks
    else b.distribution.take n
  (tiles, { b with distribution := tiles.foldl (fun d t => d.erase t) b.distribution })

/-! ## place_word (src/scrabble/board.rs lines 85-116) -/

def place_word_aux (dir : Direction) :
    (Position → Tile) → List Letter → Position → List Char →
      Option ((Position → Tile) × List Letter)
  | state, placed, _, [] => some (state, placed)
  | state, placed, pos, c :: rest =>
    let uc := c.toUpper
    let newTile := Tile.Letter (Letter.Letter uc)
    let next : Option ((Position → Tile) × List Letter) :=
      match state pos with
      | Tile.Letter (Letter.Letter l) =>
        -- the assert! that the placement does not overwrite a different letter
        if l = uc then some (state, placed) else none
      | _ =>
        let placedLetter := if c.isLower then Letter.Blank else Letter.Letter uc
        some (fun q => if q = pos then newTile else state q, placed ++ [placedLetter])
    match next with
    | none => none
    | some (state2, placed2) =>
      if rest.isEmpty then some (state2, placed2)
      else
        match pos.next dir with
        | some q => place_word_aux dir state2 placed2 q rest
        | none => none

/-- ScrabbleBoard::place_word: walk the word along the direction, asserting
compatibility with existing letters, collecting the rack letters consumed
(Blank for a lowercase char), and append the placement to the log. Walking
off the board mid-word (an index panic in the source) is modelled as
none. -/
def ScrabbleBoard.place_word (b : ScrabbleBoard) (word : List Char)
    (pos : Position) (dir : Direction) :
    Option (ScrabbleBoard × List Letter) :=
  match place_word_aux dir b.state [] pos word with
  | none => none
  | some (st2, placed) =>
    some ({ state := st2, blanks := b.blanks,
            placements := b.placements ++ [⟨word, pos, dir⟩] }, placed)

/-! ## ScrabbleState (src/scrabble/state.rs lines 100-249)

The vocabulary (an immutable fst shared by reference) enters the state only
through the move list that ScrabbleBoard::calculate_moves derives from it;
we carry that derivation as the move_gen component, so MoveGrid::build
(bag, board, vocab, rack) becomes MoveGrid.build (move_gen bag board
rack). -/

structure ScrabbleState where
  bag : Bag
  board : ScrabbleBoard
  player_racks : List Rack
  player_scores : List ℤ
  player_active : List Bool
  curr_player : ℕ
  curr_move_grid : MoveGrid
  move_gen : Bag → ScrabbleBoard → Rack → List Move

/-- ScrabbleState::is_terminal (state.rs lines 226-244): return true when
NOT every player_active flag is set, otherwise fall through to false. -/
def ScrabbleState.is_terminal (s : ScrabbleState) : Bool :=
  !(s.player_active.all (fun x => x))

/-- The count the next_state loop starts from (state.rs line 191):
filter(!x == false) counts the players whose flag is true. -/
def count_active (active : List Bool) : ℕ :=
  (active.filter (fun x => (!x) == false)).length

/-- The player-skipping loop of next_state (state.rs lines 192-210): build
the next player's move grid; when it is empty, mark the player inactive,
bump the counter, advance to the next player and retry unless the counter
has reached the number of players. The fuel only bounds the recursion; one
unit is consumed per marked player, so player count + 1 always suffices. -/
def next_state_loop (gen : Bag → ScrabbleBoard → Rack → List Move)
    (bag : Bag) (board : ScrabbleBoard) (racks : List Rack) :
    ℕ → List Bool → ℕ → ℕ → List Bool × ℕ × MoveGrid
  | fuel, active, player, inactiveCount =>
    let grid := MoveGrid.build (gen bag board (racks.getD player Rack.empty))
    if grid.moves.isEmpty then
      let active2 := active.set player false
      let count2 := inactiveCount + 1
      let player2 := (player + 1) % racks.length
      if active.length ≤ count2 then (active2, player2, grid)
      else
        match fuel with
        | 0 => (active2, player2, grid)
        | f + 1 => next_state_loop gen bag board racks f active2 player2 count2
    else (active, player, grid)

/-- ScrabbleState::next_state (state.rs lines 162-224). When the current
move grid is non-empty, resolve the action to a move, place it, settle the
rack (remove used letters, refill from the bag) and the score; then run the
player-skipping loop and finally overwrite the chosen player's active flag
with whether its grid is non-empty. rngMove / rngDraw are the oracles for
the two RNG uses. -/
def ScrabbleState.next_state (s : ScrabbleState) (action : ℕ)
    (rngMove : ℕ) (rngDraw : List ℕ) : Option ScrabbleState :=
  let applied : Option (Bag × ScrabbleBoard × List Rack × List ℤ) :=
    if 0 < s.curr_move_grid.moves.length then
      match s.curr_move_grid.get_move action rngMove with
      | none => none
      | some mv =>
        match s.board.place_word mv.word mv.pos mv.dir with
        | none => none
        | some (board2, used) =>
          let rack1 := s.player_racks.getD s.curr_player Rack.empty
          let rack2 := used.foldl (fun r l => r.remove_inplace l) rack1
          let drawn := s.bag.draw_tiles used.length rngDraw
          let rack3 := drawn.1.foldl (fun r l => r.add_inplace l) rack2
          let racks2 := s.player_racks.set s.curr_player rack3
          let scores2 := s.player_scores.set s.curr_player
            (s.player_scores.getD s.curr_player 0 + mv.score)
          some (drawn.2, board2, racks2, scores2)
    else some (s.bag, s.board, s.player_racks, s.player_scores)
  match applied with
  | none => none
  | some (bag2, board2, racks2, scores2) =>
    let player1 := (s.curr_player + 1) % s.player_racks.length
    let loopRes := next_state_loop s.move_gen bag2 board2 racks2
      (s.player_active.length + 1) s.player_active player1
      (count_active s.player_active)
    let active4 := loopRes.1.set loopRes.2.1
      (decide (0 < loopRes.2.2.moves.length))
    some { bag := bag2, board := board2, player_racks := racks2,
           player_scores := scores2, player_active := active4,
           curr_player := loopRes.2.1, curr_move_grid := loopRes.2.2,
           move_gen := s.move_gen }

/-- A concrete two-player state used by the closed theorems below. -/
def test_state (active : List Bool) : ScrabbleState :=
  { bag := ⟨[], false⟩, board := ScrabbleBoard.empty,
    player_racks := [Rack.empty, Rack.empty], player_scores := [0, 0],
    player_active := active, curr_player := 0,
    curr_move_grid := MoveGrid.build [], move_gen := fun _ _ _ => [] }

/-- C1 counter-evaluation: with player 0 still active and player 1
inactive, is_terminal already returns true (the condition at state.rs line
228 fires as soon as ANY player is inactive), although not every player is
inactive — contradicting both the claim and the comment above the code. -/
theorem is_terminal_fires_with_active_player :
    (test_state [true, false]).is_terminal = true ∧
    (test_state [true, false]).player_active.get? 0 = some true := by
  refine ⟨rfl, rfl⟩

/-- C10: when the current move grid holds no moves, next_state leaves the
bag, the board, every rack and every score untouched; only the active
flags and the current player (and the derived move grid) change. -/
theorem next_state_frame (s : ScrabbleState) (action rngMove : ℕ)
    (rngDraw : List ℕ) (h : s.curr_move_grid.moves = []) :
    ∃ s2, s.next_state action rngMove rngDraw = some s2 ∧
      s2.bag = s.bag ∧ s2.board = s.board ∧
      s2.player_racks = s.player_racks ∧
      s2.player_scores = s.player_scores ∧
      s2.move_gen = s.move_gen := by
  unfold ScrabbleState.next_state
  rw [h]
  exact ⟨_, rfl, rfl, rfl, rfl, rfl, rfl⟩

/-- Witness for C10 at a concrete state whose move grid is empty. -/
theorem next_state_frame_witness :
    ∃ s2, (test_state [true, true]).next_state 0 0 [] = some s2 ∧
      s2.bag = (test_state [true, true]).bag ∧
      s2.board = (test_state [true, true]).board ∧
      s2.player_racks = (test_state [true, true]).player_racks ∧
      s2.player_scores = (test_state [true, true]).player_scores ∧
      s2.move_gen = (test_state [true, true]).move_gen :=
  next_state_frame (test_state [true, true]) 0 0 [] rfl

end CFRSpec
